import Mathlib

/-!
Verification of the anniversary-report pipeline in
`src/employ-anniversary-summary.py` (functions `process_dates`,
`calculate_metrics`, `process_data`).

The embedding models one invocation of `process_data` on an uploaded
table.  A table is a column schema (which named columns exist) plus a
list of rows.  Cells of the two date columns are raw values that are
either null (NaN), an already-valid calendar date, or an unparseable
string; `pd.to_datetime` with default errors raises on the unparseable
case while the coercing variant turns it into NaT (`none`).  Errors raised
inside the Python `try` block are modelled by an `Except` result.
-/

/-- A calendar date as pandas exposes it (`.dt.year`, `.dt.month`). -/
structure Date where
  year : Int
  month : Nat
  day : Nat
deriving Repr, DecidableEq

/-- A raw cell of a date column before `pd.to_datetime`: null (NaN),
a value that parses to a valid date, or a string that fails to parse. -/
inductive RawDate where
  | null
  | valid (d : Date)
  | invalid (s : String)
deriving Repr, DecidableEq

/-- Errors that `process_data` can raise inside its `try` block:
the explicit `ValueError` for missing required columns (line 50), the
exception `pd.to_datetime` raises on an unparseable hire date (line 21),
and the pandas `KeyError` from accessing an absent column (lines 79-88). -/
inductive ProcErr where
  | missingColumns (cols : List String)
  | dateParseError (s : String)
  | keyError (col : String)
deriving Repr, DecidableEq

/-- Whether an error value names a given column, as its Python message
would: `ValueError` lists the missing required fields, a `KeyError`
stringifies to the quoted key, a date-parse error shows the bad value. -/
def ProcErr.namesColumn : ProcErr → String → Bool
  | .missingColumns l, c => l.contains c
  | .keyError k, c => k == c
  | .dateParseError _, _ => false

/-- One input row.  Field values for columns the schema lacks are
irrelevant: `process_data` only reads a column after establishing (by the
required-column check or an explicit `in df.columns` test) that it
exists, and otherwise raises `keyError` before touching the value. -/
structure InputRow where
  hireDate : RawDate     -- 入职日期
  tenureStart : RawDate  -- 司龄开始日期
  org3 : String          -- 三级组织
  org4 : String          -- 四级组织
  cat2 : String          -- 员工二级类别
  cat1 : String          -- 员工一级类别
  name : String          -- 姓名
  aliasName : Option String  -- 花名 (`none` = NaN cell)
  empType : String       -- 员工类型
deriving Repr, DecidableEq

/-- Which named columns the uploaded table has. -/
structure Schema where
  hasHireDate : Bool     -- 入职日期
  hasOrg3 : Bool         -- 三级组织
  hasOrg4 : Bool         -- 四级组织
  hasCat2 : Bool         -- 员工二级类别
  hasCat1 : Bool         -- 员工一级类别
  hasTenureStart : Bool  -- 司龄开始日期
  hasName : Bool         -- 姓名
  hasAlias : Bool        -- 花名
  hasEmpType : Bool      -- 员工类型
deriving Repr, DecidableEq

/-- Column-membership test, for the columns the script ever mentions. -/
def Schema.hasColumn (s : Schema) : String → Bool
  | "入职日期" => s.hasHireDate
  | "三级组织" => s.hasOrg3
  | "四级组织" => s.hasOrg4
  | "员工二级类别" => s.hasCat2
  | "员工一级类别" => s.hasCat1
  | "司龄开始日期" => s.hasTenureStart
  | "姓名" => s.hasName
  | "花名" => s.hasAlias
  | "员工类型" => s.hasEmpType
  | _ => false

/-- The required-column set of `process_data` (source lines 46-47). -/
def requiredColumns : List String :=
  ["入职日期", "三级组织", "四级组织", "员工二级类别", "员工一级类别", "司龄开始日期"]

/-- Strict date conversion with default error handling: NaN stays NaT,
a valid date parses, an unparseable string raises. -/
def toDatetimeStrict : RawDate → Except ProcErr (Option Date)
  | .null => .ok none
  | .valid d => .ok (some d)
  | .invalid s => .error (.dateParseError s)

/-- Coercing date conversion: unparseable values become NaT. -/
def toDatetimeCoerce : RawDate → Option Date
  | .null => none
  | .valid d => some d
  | .invalid _ => none

/-- A row after `process_dates`: the parsed `入职日期` and the coerced
`司龄开始日期` (`none` = NaT in either). -/
structure DatedRow where
  raw : InputRow
  hire : Option Date
  override : Option Date
deriving Repr, DecidableEq

/-- The `实际司龄日期` column (source lines 25-29):
`np.where(df[司龄开始日期].notna(), df[司龄开始日期], df[入职日期])`. -/
def DatedRow.anchor (r : DatedRow) : Option Date :=
  match r.override with
  | some d => some d
  | none => r.hire

/-- Function `process_dates` (source lines 18-30): converts `入职日期` strictly
(first unparseable cell raises) and `司龄开始日期` with coercion, and
records both so `实际司龄日期` is determined. -/
def process_dates : List InputRow → Except ProcErr (List DatedRow)
  | [] => .ok []
  | r :: rs =>
    match toDatetimeStrict r.hireDate with
    | .error e => .error e
    | .ok h =>
      match process_dates rs with
      | .error e => .error e
      | .ok rest => .ok ({ raw := r, hire := h, override := toDatetimeCoerce r.tenureStart } :: rest)

/-- The `入职月份` column of `calculate_metrics` (source line 35):
the month of the 实际司龄日期 column; NaT gives NaN (`none`). -/
def anchorMonth (r : DatedRow) : Option Nat :=
  (r.anchor).map Date.month

/-- The `周年数` column of `calculate_metrics` (source line 36):
the reference year minus the year of 实际司龄日期; NaT gives NaN (`none`). -/
def annivCount (current_year : Int) (r : DatedRow) : Option Int :=
  (r.anchor).map (fun d => current_year - d.year)

/-- The boolean mask of source lines 59-63 (named `exclusion_mask`
there although it selects the rows that are kept): anchor month matches,
not the 财务中心/证照支持部 carve-out, and 员工二级类别 is 正式员工.
A NaN month (NaT anchor) compares unequal to `current_month`. -/
def exclusion_mask (current_month : Nat) (r : DatedRow) : Bool :=
  (anchorMonth r == some current_month)
    && !((r.raw.org3 == "财务中心") && (r.raw.org4 == "证照支持部"))
    && (r.raw.cat2 == "正式员工")

/-- Selection of the rows where the mask holds (source line 64). -/
def step2Of (current_month : Nat) (dated : List DatedRow) : List DatedRow :=
  dated.filter (exclusion_mask current_month)

/-- The row-level test that 周年数 is at least 1; NaN compares false. -/
def annivCountPass (current_year : Int) (r : DatedRow) : Bool :=
  match annivCount current_year r with
  | some c => decide (1 ≤ c)
  | none => false

/-- The cut keeping only rows whose 周年数 is at least 1 (line 70). -/
def tenureCutOf (current_year : Int) (l : List DatedRow) : List DatedRow :=
  l.filter (annivCountPass current_year)

/-- The `备注` column (source lines 73-74). -/
def remarkOf (r : DatedRow) : String :=
  if r.raw.cat1 == "外包" then "注意外包人员" else ""

/-- The livewater step (source lines 77-79): only runs when the table
has a `员工类型` column; reading the 姓名 column of the selection raises a `KeyError`
when the `姓名` column is absent, even on an empty selection. -/
def livewaterOf (schema : Schema) (l : List DatedRow) : Except ProcErr (Option (List String)) :=
  if schema.hasEmpType then
    if schema.hasName then
      .ok (some ((l.filter (fun r => r.raw.empType == "活水")).map (fun r => r.raw.name)))
    else .error (.keyError "姓名")
  else .ok none

/-- Python `str.strip()`: drop leading and trailing whitespace. -/
def pyStrip (s : String) : String :=
  ⟨((s.data.dropWhile Char.isWhitespace).reverse.dropWhile Char.isWhitespace).reverse⟩

/-- Function `format_info` (source lines 82-86): the label joins 三级组织
and 姓名 with a hyphen, with the parenthesised 花名 appended when the
花名 cell is non-null and non-blank
after stripping.  Accessing 姓名 or 花名 raises `KeyError` when the
column is absent (三级组织 is always present, being required). -/
def format_info (schema : Schema) (r : DatedRow) : Except ProcErr String :=
  if schema.hasName then
    let base := r.raw.org3 ++ "-" ++ r.raw.name
    if schema.hasAlias then
      match r.raw.aliasName with
      | some a => if pyStrip a ≠ "" then .ok (base ++ "（" ++ a ++ "）") else .ok base
      | none => .ok base
    else .error (.keyError "花名")
  else .error (.keyError "姓名")

/-- A row of the returned `filtered_df`: the dated row plus its `备注`
and `人员信息` columns. -/
structure FilteredRow extends DatedRow where
  remark : String
  label : String
deriving Repr, DecidableEq

/-- Lines 73-74 and 88: attach `备注` to every kept row and apply
`format_info` row by row (`df.apply` on an empty frame never calls the
function, so an empty list succeeds even with columns missing). -/
def buildFiltered (schema : Schema) : List DatedRow → Except ProcErr (List FilteredRow)
  | [] => .ok []
  | r :: rs =>
    match format_info schema r with
    | .error e => .error e
    | .ok lab =>
      match buildFiltered schema rs with
      | .error e => .error e
      | .ok rest => .ok ({ toDatedRow := r, remark := remarkOf r, label := lab } :: rest)

/-- One row of `result_df` (columns 周年数, 周年标签, 人员信息). -/
structure SummaryRow where
  count : Int
  label : String
  names : String
deriving Repr, DecidableEq

/-- Insert into a strictly descending list, dropping duplicates. -/
def insertDesc (x : Int) : List Int → List Int
  | [] => [x]
  | y :: ys =>
    if x > y then x :: y :: ys
    else if x = y then y :: ys
    else y :: insertDesc x ys

/-- The distinct values of a list, in strictly descending order: the
group keys after grouping by 周年数 and sorting descending. -/
def sortDedupDesc (l : List Int) : List Int :=
  l.foldr insertDesc []

/-- Lines 91-96: group the filtered rows by 周年数, join the 人员信息
of each group with 、 in frame row order, sort by 周年数 descending,
and derive 周年标签 by appending 周年 to the rendered count. -/
def summaryOf (current_year : Int) (filtered : List FilteredRow) : List SummaryRow :=
  let counts := filtered.filterMap (fun r => annivCount current_year r.toDatedRow)
  (sortDedupDesc counts).map (fun k =>
    { count := k
      label := toString k ++ "周年"
      names := String.intercalate "、"
        ((filtered.filter (fun r => annivCount current_year r.toDatedRow == some k)).map
          (fun r => r.label)) })

/-- Everything one invocation of `process_data` produces: the two
returned frames, plus the two session-state fields it writes
(`special_exclusions`, `livewater_employees`). -/
structure Output where
  filtered : List FilteredRow
  result : List SummaryRow
  special_exclusions : Nat
  livewater : Option (List String)
deriving Repr, DecidableEq

/-- Function `process_data` (source lines 40-102).  The required-column check
runs first (lines 46-50); date conversion can raise (line 21); the
two boolean filters are applied (lines 59-70) with the
special-exclusion count taken between them (line 67); the livewater
extraction (lines 77-79) runs before the row-wise `format_info`
application (line 88); the summary is built last (lines 91-96).
Any raised error is the single outcome: no frames are returned. -/
def process_data (schema : Schema) (rows : List InputRow)
    (current_year : Int) (current_month : Nat) : Except ProcErr Output :=
  let missing := requiredColumns.filter (fun c => ! schema.hasColumn c)
  if missing.isEmpty then
    match process_dates rows with
    | .error e => .error e
    | .ok dated =>
      let step2 := step2Of current_month dated
      let filtered1 := tenureCutOf current_year step2
      match livewaterOf schema filtered1 with
      | .error e => .error e
      | .ok lw =>
        match buildFiltered schema filtered1 with
        | .error e => .error e
        | .ok filtered =>
          .ok { filtered := filtered
                result := summaryOf current_year filtered
                special_exclusions := dated.length - step2.length
                livewater := lw }
  else .error (.missingColumns missing)

/-! Section: Structural lemmas about the pipeline stages -/

theorem process_dates_ok (rows : List InputRow) (dated : List DatedRow)
    (h : process_dates rows = Except.ok dated) :
    dated.map DatedRow.raw = rows ∧
    ∀ x ∈ dated, toDatetimeStrict x.raw.hireDate = Except.ok x.hire ∧
      x.override = toDatetimeCoerce x.raw.tenureStart := by
  induction rows generalizing dated with
  | nil =>
    simp [process_dates] at h
    subst h; simp
  | cons r rs ih =>
    unfold process_dates at h
    split at h
    · exact absurd h (by simp)
    · rename_i hd hh
      split at h
      · exact absurd h (by simp)
      · rename_i rest hr
        cases h
        obtain ⟨hmap, hall⟩ := ih rest hr
        refine ⟨by simp [hmap], ?_⟩
        intro x hx
        rcases List.mem_cons.mp hx with hx | hx
        · subst hx; exact ⟨hh, rfl⟩
        · exact hall x hx

theorem process_dates_error_shape (rows : List InputRow) (e : ProcErr)
    (h : process_dates rows = Except.error e) :
    ∃ s, e = ProcErr.dateParseError s := by
  induction rows generalizing e with
  | nil => simp [process_dates] at h
  | cons r rs ih =>
    unfold process_dates at h
    split at h
    · rename_i e2 hh
      cases h
      cases hraw : r.hireDate <;> simp [toDatetimeStrict, hraw] at hh
      exact ⟨_, hh.symm⟩
    · split at h
      · rename_i e2 hr
        cases h
        exact ih _ hr
      · exact absurd h (by simp)

theorem process_dates_error_of_invalid (rows : List InputRow)
    (hbad : ∃ r ∈ rows, ∃ s, r.hireDate = RawDate.invalid s) :
    ∃ s2, process_dates rows = Except.error (ProcErr.dateParseError s2) := by
  obtain ⟨r, hr, s, hs⟩ := hbad
  cases hpd : process_dates rows with
  | ok dated =>
    obtain ⟨hmap, _⟩ := process_dates_ok rows dated hpd
    subst hmap
    obtain ⟨x, hx, hxr⟩ := List.mem_map.mp hr
    obtain ⟨hparse, _⟩ := (process_dates_ok _ dated hpd).2 x hx
    rw [hxr, hs] at hparse
    simp [toDatetimeStrict] at hparse
  | error e =>
    obtain ⟨s2, hs2⟩ := process_dates_error_shape rows e hpd
    exact ⟨s2, by rw [hs2]⟩

theorem buildFiltered_ok (schema : Schema) (l : List DatedRow) (fl : List FilteredRow)
    (h : buildFiltered schema l = Except.ok fl) :
    fl.map FilteredRow.toDatedRow = l ∧
    ∀ x ∈ fl, x.remark = remarkOf x.toDatedRow ∧
      format_info schema x.toDatedRow = Except.ok x.label := by
  induction l generalizing fl with
  | nil =>
    simp [buildFiltered] at h
    subst h; simp
  | cons r rs ih =>
    unfold buildFiltered at h
    split at h
    · exact absurd h (by simp)
    · rename_i lab hlab
      split at h
      · exact absurd h (by simp)
      · rename_i rest hrest
        cases h
        obtain ⟨hmap, hall⟩ := ih rest hrest
        refine ⟨by simp [hmap], ?_⟩
        intro x hx
        rcases List.mem_cons.mp hx with hx | hx
        · subst hx; exact ⟨rfl, hlab⟩
        · exact hall x hx

theorem buildFiltered_ok_of_all (schema : Schema) (l : List DatedRow)
    (h : ∀ r ∈ l, ∃ lab, format_info schema r = Except.ok lab) :
    ∃ fl, buildFiltered schema l = Except.ok fl := by
  induction l with
  | nil => exact ⟨[], rfl⟩
  | cons r rs ih =>
    obtain ⟨lab, hlab⟩ := h r (List.mem_cons_self r rs)
    obtain ⟨fl, hfl⟩ := ih (fun x hx => h x (List.mem_cons_of_mem r hx))
    exact ⟨_, by unfold buildFiltered; rw [hlab, hfl]⟩

theorem process_data_ok_elim (schema : Schema) (rows : List InputRow)
    (y : Int) (m : Nat) (out : Output)
    (h : process_data schema rows y m = Except.ok out) :
    (requiredColumns.filter (fun c => ! schema.hasColumn c)) = [] ∧
    ∃ dated,
      process_dates rows = Except.ok dated ∧
      livewaterOf schema (tenureCutOf y (step2Of m dated)) = Except.ok out.livewater ∧
      buildFiltered schema (tenureCutOf y (step2Of m dated)) = Except.ok out.filtered ∧
      out.result = summaryOf y out.filtered ∧
      out.special_exclusions = dated.length - (step2Of m dated).length := by
  simp only [process_data] at h
  split at h
  · rename_i hempty
    split at h
    · exact absurd h (by simp)
    · rename_i dated hpd
      split at h
      · exact absurd h (by simp)
      · rename_i lw hlw
        split at h
        · exact absurd h (by simp)
        · rename_i fl hfl
          cases h
          exact ⟨List.isEmpty_iff.mp hempty, dated, hpd, hlw, hfl, rfl, rfl⟩
  · exact absurd h (by simp)

/-! Section: Lemmas about the descending duplicate-free key list -/

theorem mem_insertDesc (x a : Int) (l : List Int) :
    a ∈ insertDesc x l ↔ a = x ∨ a ∈ l := by
  induction l with
  | nil => simp [insertDesc]
  | cons y ys ih =>
    unfold insertDesc
    split
    · simp [List.mem_cons]
    · split
      · rename_i hgt heq
        subst heq
        simp [List.mem_cons]
      · simp [List.mem_cons, ih]
        tauto

theorem pairwise_insertDesc (x : Int) (l : List Int)
    (h : l.Pairwise (fun a b => b < a)) :
    (insertDesc x l).Pairwise (fun a b => b < a) := by
  induction l with
  | nil => simp [insertDesc]
  | cons y ys ih =>
    obtain ⟨hy, hys⟩ := List.pairwise_cons.mp h
    unfold insertDesc
    split
    · rename_i hgt
      refine List.pairwise_cons.mpr ⟨?_, h⟩
      intro b hb
      rcases List.mem_cons.mp hb with hb | hb
      · omega
      · have := hy b hb; omega
    · split
      · exact h
      · rename_i hngt hne
        refine List.pairwise_cons.mpr ⟨?_, ih hys⟩
        intro b hb
        rcases (mem_insertDesc x b ys).mp hb with hb | hb
        · omega
        · exact hy b hb

theorem sortDedupDesc_pairwise (l : List Int) :
    (sortDedupDesc l).Pairwise (fun a b => b < a) := by
  induction l with
  | nil => simp [sortDedupDesc]
  | cons x xs ih => exact pairwise_insertDesc x (sortDedupDesc xs) ih

theorem mem_sortDedupDesc (a : Int) (l : List Int) :
    a ∈ sortDedupDesc l ↔ a ∈ l := by
  induction l with
  | nil => simp [sortDedupDesc]
  | cons x xs ih =>
    rw [show sortDedupDesc (x :: xs) = insertDesc x (sortDedupDesc xs) from rfl,
      mem_insertDesc]
    simp [ih]

theorem sortDedupDesc_nodup (l : List Int) : (sortDedupDesc l).Nodup :=
  (sortDedupDesc_pairwise l).imp (fun h => by omega)

/-! Section: A counting lemma: groups with duplicate-free covering keys -/

theorem list_sum_map_add {α : Type} (f g : α → Nat) (l : List α) :
    (l.map (fun x => f x + g x)).sum = (l.map f).sum + (l.map g).sum := by
  induction l with
  | nil => simp
  | cons a l ih => simp [ih]; omega

theorem sum_map_indicator_zero (x : Int) (keys : List Int) (hx : x ∉ keys) :
    (keys.map (fun k => if x = k then 1 else 0)).sum = 0 := by
  induction keys with
  | nil => simp
  | cons k ks ih =>
    have hne : ¬ x = k := fun e => hx (e ▸ List.mem_cons_self k ks)
    have hout : x ∉ ks := fun e => hx (List.mem_cons_of_mem k e)
    simp [hne, ih hout]

theorem sum_map_indicator (x : Int) (keys : List Int)
    (hnd : keys.Nodup) (hx : x ∈ keys) :
    (keys.map (fun k => if x = k then 1 else 0)).sum = 1 := by
  induction keys with
  | nil => simp at hx
  | cons k ks ih =>
    obtain ⟨hk, hks⟩ := List.nodup_cons.mp hnd
    rcases List.mem_cons.mp hx with h | h
    · subst h
      simp [sum_map_indicator_zero x ks hk]
    · have hne : ¬ x = k := fun e => hk (e ▸ h)
      simp [hne, ih hks h]

theorem sum_group_lengths {α : Type} (key : α → Option Int) (l : List α) (keys : List Int)
    (hnd : keys.Nodup)
    (hcov : ∀ x ∈ l, ∀ k, key x = some k → k ∈ keys)
    (hall : ∀ x ∈ l, key x ≠ none) :
    (keys.map (fun k => (l.filter (fun x => key x == some k)).length)).sum = l.length := by
  induction l with
  | nil => simp
  | cons a l ih =>
    obtain ⟨ka, hka⟩ : ∃ k, key a = some k := by
      cases h : key a with
      | none => exact absurd h (hall a (List.mem_cons_self a l))
      | some k => exact ⟨k, rfl⟩
    have hsplit : ∀ k : Int, (List.filter (fun x => key x == some k) (a :: l)).length
        = (if ka = k then 1 else 0) + (List.filter (fun x => key x == some k) l).length := by
      intro k
      by_cases hk : ka = k
      · subst hk; simp [List.filter_cons, hka]; omega
      · have : ¬ (key a == some k) = true := by simp [hka, hk]
        simp [List.filter_cons, this, hk]
    calc (keys.map (fun k => (List.filter (fun x => key x == some k) (a :: l)).length)).sum
        = (keys.map (fun k =>
            (if ka = k then 1 else 0) + (List.filter (fun x => key x == some k) l).length)).sum := by
          congr 1
          exact List.map_congr_left (fun k _ => hsplit k)
      _ = (keys.map (fun k => if ka = k then 1 else 0)).sum
            + (keys.map (fun k => (List.filter (fun x => key x == some k) l).length)).sum :=
          list_sum_map_add _ _ keys
      _ = 1 + l.length := by
          rw [sum_map_indicator ka keys hnd (hcov a (List.mem_cons_self a l) ka hka),
            ih (fun x hx => hcov x (List.mem_cons_of_mem a hx))
               (fun x hx => hall x (List.mem_cons_of_mem a hx))]
      _ = (a :: l).length := by simp [Nat.add_comm]

/-! Section: Unpacking the boolean filters -/

theorem exclusion_mask_iff (m : Nat) (r : DatedRow) :
    exclusion_mask m r = true ↔
      anchorMonth r = some m ∧
      ¬(r.raw.org3 = "财务中心" ∧ r.raw.org4 = "证照支持部") ∧
      r.raw.cat2 = "正式员工" := by
  simp only [exclusion_mask, Bool.and_eq_true, Bool.not_eq_true', Bool.and_eq_false_iff,
    beq_iff_eq, beq_eq_false_iff_ne, ne_eq, and_assoc]
  tauto

theorem annivCountPass_iff (y : Int) (r : DatedRow) :
    annivCountPass y r = true ↔ ∃ c, annivCount y r = some c ∧ 1 ≤ c := by
  constructor
  · intro h
    unfold annivCountPass at h
    split at h
    · rename_i c hc; exact ⟨c, hc, by simpa using h⟩
    · simp at h
  · rintro ⟨c, hc, h1⟩
    simp [annivCountPass, hc, h1]

theorem filtered_mem_facts (schema : Schema) (rows : List InputRow)
    (y : Int) (m : Nat) (out : Output)
    (h : process_data schema rows y m = Except.ok out) :
    ∀ r ∈ out.filtered,
      exclusion_mask m r.toDatedRow = true ∧
      annivCountPass y r.toDatedRow = true ∧
      r.remark = remarkOf r.toDatedRow ∧
      format_info schema r.toDatedRow = Except.ok r.label := by
  obtain ⟨-, dated, hpd, hlw, hbf, hres, hse⟩ := process_data_ok_elim schema rows y m out h
  obtain ⟨hmap, hall⟩ := buildFiltered_ok schema _ _ hbf
  intro r hr
  have hmem : r.toDatedRow ∈ tenureCutOf y (step2Of m dated) := by
    rw [← hmap]; exact List.mem_map_of_mem FilteredRow.toDatedRow hr
  simp only [tenureCutOf, step2Of, List.mem_filter] at hmem
  exact ⟨hmem.1.2, hmem.2, (hall r hr).1, (hall r hr).2⟩

theorem summaryOf_mem (y : Int) (filtered : List FilteredRow) (s : SummaryRow)
    (hs : s ∈ summaryOf y filtered) :
    s.count ∈ filtered.filterMap (fun r => annivCount y r.toDatedRow) ∧
    s.label = toString s.count ++ "周年" ∧
    s.names = String.intercalate "、"
      ((filtered.filter (fun r => annivCount y r.toDatedRow == some s.count)).map
        (fun r => r.label)) := by
  simp only [summaryOf, List.mem_map] at hs
  obtain ⟨k, hk, hmk⟩ := hs
  subst hmk
  exact ⟨(mem_sortDedupDesc k _).mp hk, rfl, rfl⟩

/-! Section: Concrete inputs used by the witnesses -/

/-- A schema with the six required columns, 姓名 and 花名, but no
optional 员工类型 column. -/
def exSchemaC1 : Schema :=
  { hasHireDate := true, hasOrg3 := true, hasOrg4 := true, hasCat2 := true,
    hasCat1 := true, hasTenureStart := true, hasName := true, hasAlias := true,
    hasEmpType := false }

/-- A regular employee hired 2019-03-15, no tenure override. -/
def rowC1 : InputRow :=
  { hireDate := .valid ⟨2019, 3, 15⟩, tenureStart := .null,
    org3 := "技术中心", org4 := "平台部", cat2 := "正式员工", cat1 := "正式",
    name := "张三", aliasName := some "小张", empType := "" }

/-- The filtered row `process_data` produces from `rowC1` at (2025, 3). -/
def fRowC1 : FilteredRow :=
  { raw := rowC1, hire := some ⟨2019, 3, 15⟩, override := none,
    remark := "", label := "技术中心-张三（小张）" }

/-- The full output of `process_data exSchemaC1 [rowC1] 2025 3`. -/
def outC1 : Output :=
  { filtered := [fRowC1],
    result := [{ count := 6, label := "6周年", names := "技术中心-张三（小张）" }],
    special_exclusions := 0, livewater := none }

/-! Section: C1 -/

/-- C1: for every valid input on which `process_data` succeeds, every
record of the returned filtered frame has anchor month equal to the
reference month, is not in the 财务中心/证照支持部 carve-out, has
员工二级类别 = 正式员工, and has 周年数 ≥ 1. -/
theorem filtered_records_satisfy_predicate (schema : Schema) (rows : List InputRow)
    (y : Int) (m : Nat) (out : Output)
    (h : process_data schema rows y m = Except.ok out) :
    ∀ r ∈ out.filtered,
      anchorMonth r.toDatedRow = some m ∧
      ¬(r.toDatedRow.raw.org3 = "财务中心" ∧ r.toDatedRow.raw.org4 = "证照支持部") ∧
      r.toDatedRow.raw.cat2 = "正式员工" ∧
      ∃ c, annivCount y r.toDatedRow = some c ∧ 1 ≤ c := by
  intro r hr
  obtain ⟨hmask, hpass, -, -⟩ := filtered_mem_facts schema rows y m out h r hr
  obtain ⟨h1, h2, h3⟩ := (exclusion_mask_iff m r.toDatedRow).mp hmask
  exact ⟨h1, h2, h3, (annivCountPass_iff y r.toDatedRow).mp hpass⟩

/-- Witness for C1 at a concrete run of the pipeline. -/
theorem filtered_records_satisfy_predicate_witness :
    anchorMonth fRowC1.toDatedRow = some 3 ∧
    fRowC1.toDatedRow.raw.cat2 = "正式员工" := by
  have h := filtered_records_satisfy_predicate exSchemaC1 [rowC1] 2025 3 outC1 rfl
    fRowC1 (by simp [outC1])
  exact ⟨h.1, h.2.2.1⟩

/-! Section: C2 -/

/-- The override scenario of C2: 司龄开始日期 2023-03-01 while
入职日期 is 2010-01-01. -/
def rowC2 : InputRow :=
  { hireDate := .valid ⟨2010, 1, 1⟩, tenureStart := .valid ⟨2023, 3, 1⟩,
    org3 := "技术中心", org4 := "平台部", cat2 := "正式员工", cat1 := "正式",
    name := "李四", aliasName := none, empType := "" }

/-- What `process_dates` makes of `rowC2`. -/
def datedC2 : DatedRow :=
  { raw := rowC2, hire := some ⟨2010, 1, 1⟩, override := some ⟨2023, 3, 1⟩ }

/-- C2: after `process_dates`, the anchor date (实际司龄日期) of every record
is the coerced 司龄开始日期 override when that is present and valid, else
the parsed 入职日期; and in the concrete scenario with override
2023-03-01 over hire date 2010-01-01 at reference (2025, 3), the
anniversary count is 2, not 15. -/
theorem anchor_date_resolution (rows : List InputRow) (dated : List DatedRow)
    (h : process_dates rows = Except.ok dated) :
    (∀ r ∈ dated,
      (∀ d, toDatetimeCoerce r.raw.tenureStart = some d → r.anchor = some d) ∧
      (toDatetimeCoerce r.raw.tenureStart = none → r.anchor = r.hire) ∧
      toDatetimeStrict r.raw.hireDate = Except.ok r.hire) ∧
    (process_dates [rowC2] = Except.ok [datedC2] ∧
      annivCount 2025 datedC2 = some 2 ∧
      anchorMonth datedC2 = some 3 ∧
      ¬ annivCount 2025 datedC2 = some 15) := by
  refine ⟨?_, rfl, rfl, rfl, by decide⟩
  obtain ⟨-, hall⟩ := process_dates_ok rows dated h
  intro r hr
  obtain ⟨hparse, hover⟩ := hall r hr
  refine ⟨?_, ?_, hparse⟩
  · intro d hd; unfold DatedRow.anchor; rw [hover, hd]
  · intro hd; unfold DatedRow.anchor; rw [hover, hd]

/-- Witness for C2 at the concrete override scenario. -/
theorem anchor_date_resolution_witness :
    datedC2.anchor = some ⟨2023, 3, 1⟩ ∧ annivCount 2025 datedC2 = some 2 := by
  have h := anchor_date_resolution [rowC2] [datedC2] rfl
  exact ⟨(h.1 datedC2 (by simp)).1 ⟨2023, 3, 1⟩ rfl, h.2.2.1⟩

/-! Section: C3 -/

/-- C3: the 周年数 of every row is the reference year minus the anchor
year of the anchor date, and every record with 周年数 < 1 is absent from both the
filtered frame and the summary: everything in either has count ≥ 1. -/
theorem min_tenure_cut (schema : Schema) (rows : List InputRow)
    (y : Int) (m : Nat) (out : Output)
    (h : process_data schema rows y m = Except.ok out) :
    (∀ r ∈ out.filtered, ∃ d, r.toDatedRow.anchor = some d ∧
        annivCount y r.toDatedRow = some (y - d.year) ∧ 1 ≤ y - d.year) ∧
    (∀ s ∈ out.result, 1 ≤ s.count ∧
        ∃ r ∈ out.filtered, annivCount y r.toDatedRow = some s.count) := by
  have hcnt : ∀ r ∈ out.filtered, ∃ c, annivCount y r.toDatedRow = some c ∧ 1 ≤ c := by
    intro r hr
    obtain ⟨-, hpass, -, -⟩ := filtered_mem_facts schema rows y m out h r hr
    exact (annivCountPass_iff y r.toDatedRow).mp hpass
  constructor
  · intro r hr
    obtain ⟨c, hc, h1⟩ := hcnt r hr
    obtain ⟨d, hd, hcd⟩ := Option.map_eq_some'.mp hc
    exact ⟨d, hd, by rw [hc, hcd], by rw [hcd]; exact h1⟩
  · intro s hs
    obtain ⟨-, dated, hpd, hlw, hbf, hres, hse⟩ := process_data_ok_elim schema rows y m out h
    rw [hres] at hs
    obtain ⟨hkey, -, -⟩ := summaryOf_mem y out.filtered s hs
    obtain ⟨r, hr, hra⟩ := List.mem_filterMap.mp hkey
    obtain ⟨c, hc, h1⟩ := hcnt r hr
    have : c = s.count := by rw [hc] at hra; exact Option.some_injective Int hra
    exact ⟨this ▸ h1, r, hr, hra⟩

/-- Witness for C3 at the concrete run from the C1 input. -/
theorem min_tenure_cut_witness :
    ∃ d, fRowC1.toDatedRow.anchor = some d ∧
      annivCount 2025 fRowC1.toDatedRow = some (2025 - d.year) ∧ 1 ≤ 2025 - d.year := by
  have h := min_tenure_cut exSchemaC1 [rowC1] 2025 3 outC1 rfl
  exact h.1 fRowC1 (by simp [outC1])

/-! Section: C4 -/

theorem filter_length_partition {α : Type} (p : α → Bool) (l : List α) :
    (l.filter p).length + (l.filter (fun x => ! p x)).length = l.length := by
  induction l with
  | nil => simp
  | cons a l ih =>
    by_cases h : p a = true
    · simp [List.filter_cons, h]; omega
    · simp only [Bool.not_eq_true] at h
      simp [List.filter_cons, h]; omega

/-- A 正式员工 record hired 2025-03-10: it passes the Step-2 mask at
reference (2025, 3) but has 周年数 = 0, so the ≥ 1 cut drops it. -/
def rowC4 : InputRow :=
  { hireDate := .valid ⟨2025, 3, 10⟩, tenureStart := .null,
    org3 := "技术中心", org4 := "平台部", cat2 := "正式员工", cat1 := "正式",
    name := "王五", aliasName := none, empType := "" }

/-- What `process_dates` makes of `rowC4`. -/
def datedC4 : DatedRow :=
  { raw := rowC4, hire := some ⟨2025, 3, 10⟩, override := none }

/-- What `process_data exSchemaC1 [rowC4] 2025 3` returns. -/
def outC4 : Output :=
  { filtered := [], result := [], special_exclusions := 0, livewater := none }

/-- C4 counterexample: `process_data` retains no excluded-record set —
only the count `special_exclusions`, taken before the 周年数 ≥ 1 cut.
On an input with one record that passes the Step-2 mask but has
周年数 = 0, the filtered frame is empty and the exclusion count is 0,
so the retained outputs do not account for the input record: no
partition of the input is produced. -/
theorem excluded_partition_counterexample :
    process_data exSchemaC1 [rowC4] 2025 3 = Except.ok outC4 ∧
    outC4.filtered = [] ∧
    outC4.filtered.length + outC4.special_exclusions ≠ [rowC4].length := by
  exact ⟨rfl, rfl, by decide⟩

/-- C4 amended: only the count of records failing the Step-2 mask is
retained (`special_exclusions`); at the Step-2 stage the mask does
partition the input rows (pass-count plus fail-count equals the input
length, and the dated rows are exactly the input rows), but the
returned filtered frame is the Step-2 survivors further cut to
周年数 ≥ 1, so it together with `special_exclusions` can undercount
the input. -/
theorem special_exclusions_step2_partition (schema : Schema) (rows : List InputRow)
    (y : Int) (m : Nat) (out : Output) (dated : List DatedRow)
    (h : process_data schema rows y m = Except.ok out)
    (hd : process_dates rows = Except.ok dated) :
    dated.map DatedRow.raw = rows ∧
    (step2Of m dated).length + (dated.filter (fun r => ! exclusion_mask m r)).length
      = rows.length ∧
    out.special_exclusions = rows.length - (step2Of m dated).length ∧
    out.filtered.map FilteredRow.toDatedRow = tenureCutOf y (step2Of m dated) := by
  obtain ⟨-, dated2, hpd, hlw, hbf, hres, hse⟩ := process_data_ok_elim schema rows y m out h
  rw [hd] at hpd
  have hdd : dated = dated2 := by injection hpd
  subst hdd
  obtain ⟨hmap, -⟩ := process_dates_ok rows dated hd
  have hlen : dated.length = rows.length := by
    rw [← hmap]; simp
  obtain ⟨hmapf, -⟩ := buildFiltered_ok schema _ _ hbf
  refine ⟨hmap, ?_, by rw [hse, hlen], hmapf⟩
  rw [← hlen]
  exact filter_length_partition (exclusion_mask m) dated

/-- Witness for the amended C4 at the count-0 input: the single input
record is partitioned at Step 2 (1 pass + 0 fail), the retained count
is 0, and the filtered frame is the empty 周年数 ≥ 1 cut. -/
theorem special_exclusions_step2_partition_witness :
    outC4.special_exclusions = [rowC4].length - (step2Of 3 [datedC4]).length ∧
    outC4.filtered.map FilteredRow.toDatedRow = tenureCutOf 2025 (step2Of 3 [datedC4]) := by
  have h := special_exclusions_step2_partition exSchemaC1 [rowC4] 2025 3 outC4 [datedC4] rfl rfl
  exact ⟨h.2.2.1, h.2.2.2⟩

/-! Section: C5 -/

/-- C5: the summary has one row per distinct 周年数 among the filtered
records, sorted strictly descending (hence no duplicate counts); each
row has 周年标签 equal to the count rendered as a string followed by
周年, and 人员信息 joining the labels of the group with 、 in the row
order of the filtered frame; the groups cover the filtered frame, and the group
sizes sum to its length. -/
theorem summary_aggregation (schema : Schema) (rows : List InputRow)
    (y : Int) (m : Nat) (out : Output)
    (h : process_data schema rows y m = Except.ok out) :
    out.result.Pairwise (fun a b => b.count < a.count) ∧
    (∀ s ∈ out.result,
      s.label = toString s.count ++ "周年" ∧
      s.names = String.intercalate "、"
        ((out.filtered.filter (fun r => annivCount y r.toDatedRow == some s.count)).map
          (fun r => r.label))) ∧
    (∀ k : Int, (∃ s ∈ out.result, s.count = k) ↔
      ∃ r ∈ out.filtered, annivCount y r.toDatedRow = some k) ∧
    ((out.result.map (fun s =>
        (out.filtered.filter (fun r => annivCount y r.toDatedRow == some s.count)).length)).sum
      = out.filtered.length) := by
  obtain ⟨-, dated, hpd, hlw, hbf, hres, hse⟩ := process_data_ok_elim schema rows y m out h
  have hall : ∀ r ∈ out.filtered, annivCount y r.toDatedRow ≠ none := by
    intro r hr hnone
    obtain ⟨-, hpass, -, -⟩ := filtered_mem_facts schema rows y m out h r hr
    obtain ⟨c, hc, -⟩ := (annivCountPass_iff y r.toDatedRow).mp hpass
    rw [hc] at hnone
    exact Option.noConfusion hnone
  refine ⟨?_, ?_, ?_, ?_⟩
  · rw [hres]
    simp only [summaryOf]
    exact List.pairwise_map.mpr
      (sortDedupDesc_pairwise (out.filtered.filterMap (fun r => annivCount y r.toDatedRow)))
  · intro s hs
    rw [hres] at hs
    exact (summaryOf_mem y out.filtered s hs).2
  · intro k
    constructor
    · rintro ⟨s, hs, hk⟩
      rw [hres] at hs
      obtain ⟨hkey, -, -⟩ := summaryOf_mem y out.filtered s hs
      rw [hk] at hkey
      exact List.mem_filterMap.mp hkey
    · rintro ⟨r, hr, hk⟩
      have hmem : k ∈ out.filtered.filterMap (fun r => annivCount y r.toDatedRow) :=
        List.mem_filterMap.mpr ⟨r, hr, hk⟩
      rw [hres]
      simp only [summaryOf, List.mem_map]
      exact ⟨_, ⟨k, (mem_sortDedupDesc k _).mpr hmem, rfl⟩, rfl⟩
  · have hmaps : out.result.map (fun s =>
        (out.filtered.filter (fun r => annivCount y r.toDatedRow == some s.count)).length)
        = (sortDedupDesc (out.filtered.filterMap (fun r => annivCount y r.toDatedRow))).map
            (fun k => (out.filtered.filter
              (fun r => annivCount y r.toDatedRow == some k)).length) := by
      rw [hres]
      simp only [summaryOf, List.map_map]
      rfl
    rw [hmaps]
    exact sum_group_lengths (fun r => annivCount y r.toDatedRow) out.filtered _
      (sortDedupDesc_nodup _)
      (fun x hx k hk => (mem_sortDedupDesc k _).mpr (List.mem_filterMap.mpr ⟨x, hx, hk⟩))
      hall

/-- Three regular employees with March anchors: two share 周年数 6,
one has 周年数 2. -/
def rowC5a : InputRow :=
  { hireDate := .valid ⟨2019, 3, 15⟩, tenureStart := .null,
    org3 := "技术中心", org4 := "平台部", cat2 := "正式员工", cat1 := "正式",
    name := "张三三", aliasName := none, empType := "" }

/-- Second employee of the C5 run, also 周年数 6. -/
def rowC5b : InputRow :=
  { hireDate := .valid ⟨2019, 3, 2⟩, tenureStart := .null,
    org3 := "技术中心", org4 := "平台部", cat2 := "正式员工", cat1 := "正式",
    name := "李雷", aliasName := none, empType := "" }

/-- Third employee of the C5 run, 周年数 2. -/
def rowC5c : InputRow :=
  { hireDate := .valid ⟨2023, 3, 9⟩, tenureStart := .null,
    org3 := "技术中心", org4 := "平台部", cat2 := "正式员工", cat1 := "正式",
    name := "韩梅", aliasName := none, empType := "" }

/-- The filtered rows of the C5 run. -/
def fRowC5a : FilteredRow :=
  { raw := rowC5a, hire := some ⟨2019, 3, 15⟩, override := none,
    remark := "", label := "技术中心-张三三" }

/-- Second filtered row of the C5 run. -/
def fRowC5b : FilteredRow :=
  { raw := rowC5b, hire := some ⟨2019, 3, 2⟩, override := none,
    remark := "", label := "技术中心-李雷" }

/-- Third filtered row of the C5 run. -/
def fRowC5c : FilteredRow :=
  { raw := rowC5c, hire := some ⟨2023, 3, 9⟩, override := none,
    remark := "", label := "技术中心-韩梅" }

/-- The output of `process_data exSchemaC1 [rowC5a, rowC5b, rowC5c] 2025 3`:
two summary groups, 6周年 before 2周年, joined with 、 in row order. -/
def outC5 : Output :=
  { filtered := [fRowC5a, fRowC5b, fRowC5c],
    result := [{ count := 6, label := "6周年", names := "技术中心-张三三、技术中心-李雷" },
               { count := 2, label := "2周年", names := "技术中心-韩梅" }],
    special_exclusions := 0, livewater := none }

/-- Witness for C5: group sizes (2 and 1) sum to the filtered length 3
on the concrete three-employee run. -/
theorem summary_aggregation_witness :
    (outC5.result.map (fun s =>
        (outC5.filtered.filter (fun r => annivCount 2025 r.toDatedRow == some s.count)).length)).sum
      = outC5.filtered.length := by
  have h := summary_aggregation exSchemaC1 [rowC5a, rowC5b, rowC5c] 2025 3 outC5 rfl
  exact h.2.2.2

/-! Section: C6 -/

/-- C6: when any required column is absent, `process_data` fails — for
any row contents, so before any date handling or filtering — with the
missing-columns error, and the reported list contains exactly the
required columns absent from the schema. -/
theorem schema_error_names_missing (schema : Schema) (rows : List InputRow)
    (y : Int) (m : Nat)
    (h : requiredColumns.filter (fun c => ! schema.hasColumn c) ≠ []) :
    process_data schema rows y m
      = Except.error (ProcErr.missingColumns
          (requiredColumns.filter (fun c => ! schema.hasColumn c))) ∧
    ∀ c, (c ∈ requiredColumns.filter (fun c => ! schema.hasColumn c)) ↔
      (c ∈ requiredColumns ∧ schema.hasColumn c = false) := by
  constructor
  · have hne : ¬ (requiredColumns.filter (fun c => ! schema.hasColumn c)).isEmpty = true := by
      simpa [List.isEmpty_iff] using h
    simp only [process_data]
    rw [if_neg hne]
  · intro c
    simp [List.mem_filter]

/-- The C1 schema with the 四级组织 column removed. -/
def schemaC6 : Schema := { exSchemaC1 with hasOrg4 := false }

/-- Witness for C6: a schema lacking only 四级组织 fails with the error
listing exactly that column. -/
theorem schema_error_names_missing_witness :
    process_data schemaC6 [] 2025 3
      = Except.error (ProcErr.missingColumns ["四级组织"]) := by
  have h := schema_error_names_missing schemaC6 [] 2025 3 (by decide)
  exact h.1

/-! Section: C7 -/

/-- C7: if the schema check passes but some 入职日期 cell does not
parse, `process_data` fails with the date-parse error that
`process_dates` raises — before the filtering stages, whose inputs play
no role — and no output record is produced. -/
theorem hire_date_parse_failure (schema : Schema) (rows : List InputRow)
    (y : Int) (m : Nat)
    (hschema : requiredColumns.filter (fun c => ! schema.hasColumn c) = [])
    (hbad : ∃ r ∈ rows, ∃ s, r.hireDate = RawDate.invalid s) :
    (∃ s, process_dates rows = Except.error (ProcErr.dateParseError s) ∧
      process_data schema rows y m = Except.error (ProcErr.dateParseError s)) ∧
    ∀ out : Output, process_data schema rows y m ≠ Except.ok out := by
  obtain ⟨s2, hs2⟩ := process_dates_error_of_invalid rows hbad
  have hpd : process_data schema rows y m = Except.error (ProcErr.dateParseError s2) := by
    simp only [process_data]
    rw [if_pos (by simp [List.isEmpty_iff, hschema]), hs2]
  refine ⟨⟨s2, hs2, hpd⟩, fun out hok => ?_⟩
  rw [hpd] at hok
  exact Except.noConfusion hok

/-- An input row whose 入职日期 cell cannot be parsed. -/
def rowC7bad : InputRow :=
  { hireDate := .invalid "not-a-date", tenureStart := .null,
    org3 := "技术中心", org4 := "平台部", cat2 := "正式员工", cat1 := "正式",
    name := "孙八", aliasName := none, empType := "" }

/-- Witness for C7: with the bad hire date, the concrete run produces
no output frames. -/
theorem hire_date_parse_failure_witness :
    process_data exSchemaC1 [rowC7bad] 2025 3 ≠ Except.ok outC4 := by
  have h := hire_date_parse_failure exSchemaC1 [rowC7bad] 2025 3 (by decide)
    ⟨rowC7bad, by simp, "not-a-date", rfl⟩
  exact h.2 outC4

/-! Section: C8 -/

theorem format_info_ok_label (schema : Schema) (r : DatedRow) (lab : String)
    (h : format_info schema r = Except.ok lab) :
    lab = (match r.raw.aliasName with
      | some a =>
        if pyStrip a ≠ "" then r.raw.org3 ++ "-" ++ r.raw.name ++ "（" ++ a ++ "）"
        else r.raw.org3 ++ "-" ++ r.raw.name
      | none => r.raw.org3 ++ "-" ++ r.raw.name) := by
  cases hn : schema.hasName with
  | false => simp [format_info, hn] at h
  | true =>
    cases ha : schema.hasAlias with
    | false => simp [format_info, hn, ha] at h
    | true =>
      cases hal : r.raw.aliasName with
      | none =>
        simp only [format_info, hn, ha, hal, if_true] at h
        cases h
        rfl
      | some a =>
        simp only [format_info, hn, ha, hal, if_true] at h
        by_cases hstrip : pyStrip a ≠ ""
        · rw [if_pos hstrip] at h
          cases h
          simp [hstrip]
        · rw [if_neg hstrip] at h
          cases h
          simp [hstrip]

/-- C8: the annotation stage never removes a record — the filtered frame
is exactly the Step-2 + 周年数 ≥ 1 survivors — and on each kept record
the 备注 is 注意外包人员 exactly when 员工一级类别 = 外包 (else empty),
while 人员信息 is org3-name with （花名） appended exactly when the 花名
cell is non-null and non-blank after stripping. -/
theorem outsourced_remark_and_label (schema : Schema) (rows : List InputRow)
    (y : Int) (m : Nat) (out : Output) (dated : List DatedRow)
    (h : process_data schema rows y m = Except.ok out)
    (hd : process_dates rows = Except.ok dated) :
    out.filtered.map FilteredRow.toDatedRow = tenureCutOf y (step2Of m dated) ∧
    ∀ r ∈ out.filtered,
      (r.toDatedRow.raw.cat1 = "外包" → r.remark = "注意外包人员") ∧
      (r.toDatedRow.raw.cat1 ≠ "外包" → r.remark = "") ∧
      r.label = (match r.toDatedRow.raw.aliasName with
        | some a =>
          if pyStrip a ≠ "" then
            r.toDatedRow.raw.org3 ++ "-" ++ r.toDatedRow.raw.name ++ "（" ++ a ++ "）"
          else r.toDatedRow.raw.org3 ++ "-" ++ r.toDatedRow.raw.name
        | none => r.toDatedRow.raw.org3 ++ "-" ++ r.toDatedRow.raw.name) := by
  obtain ⟨-, dated2, hpd, hlw, hbf, hres, hse⟩ := process_data_ok_elim schema rows y m out h
  rw [hd] at hpd
  have hdd : dated = dated2 := by injection hpd
  subst hdd
  obtain ⟨hmap, -⟩ := buildFiltered_ok schema _ _ hbf
  refine ⟨hmap, ?_⟩
  intro r hr
  obtain ⟨-, -, hrem, hlab⟩ := filtered_mem_facts schema rows y m out h r hr
  refine ⟨?_, ?_, format_info_ok_label schema r.toDatedRow r.label hlab⟩
  · intro hc
    rw [hrem]
    simp [remarkOf, hc]
  · intro hc
    rw [hrem]
    simp [remarkOf, hc]

/-- An outsourced (外包) employee with a non-blank 花名. -/
def rowC8 : InputRow :=
  { hireDate := .valid ⟨2020, 3, 5⟩, tenureStart := .null,
    org3 := "技术中心", org4 := "平台部", cat2 := "正式员工", cat1 := "外包",
    name := "赵六", aliasName := some "阿宝", empType := "" }

/-- The filtered row `process_data` produces from `rowC8` at (2025, 3). -/
def fRowC8 : FilteredRow :=
  { raw := rowC8, hire := some ⟨2020, 3, 5⟩, override := none,
    remark := "注意外包人员", label := "技术中心-赵六（阿宝）" }

/-- The output of `process_data exSchemaC1 [rowC8] 2025 3`: the
outsourced record is kept, with its remark attached. -/
def outC8 : Output :=
  { filtered := [fRowC8],
    result := [{ count := 5, label := "5周年", names := "技术中心-赵六（阿宝）" }],
    special_exclusions := 0, livewater := none }

/-- Witness for C8: the outsourced employee is still in the filtered
frame, carries the remark, and gets the alias-suffixed label. -/
theorem outsourced_remark_and_label_witness :
    fRowC8.remark = "注意外包人员" ∧ fRowC8.label = "技术中心-赵六（阿宝）" := by
  have h := outsourced_remark_and_label exSchemaC1 [rowC8] 2025 3 outC8
    [fRowC8.toDatedRow] rfl rfl
  have h2 := h.2 fRowC8 (by simp [outC8])
  exact ⟨h2.1 rfl, by rw [h2.2.2]; rfl⟩

/-! Section: C9 -/

theorem buildFiltered_schema_no_emptype (schema : Schema) (l : List DatedRow) :
    buildFiltered { schema with hasEmpType := false } l = buildFiltered schema l := by
  induction l with
  | nil => rfl
  | cons r rs ih =>
    have hfmt : format_info { schema with hasEmpType := false } r = format_info schema r := rfl
    unfold buildFiltered
    rw [hfmt, ih]

/-- C9: when the schema has a 员工类型 column, the livewater list is
exactly the names of the filtered records whose 员工类型 is 活水; when
it does not, no list is produced; and dropping the 员工类型 column from
the schema leaves the filtered frame and the summary unchanged — the
collection never affects them. -/
theorem mobility_alert (schema : Schema) (rows : List InputRow)
    (y : Int) (m : Nat) (out : Output)
    (h : process_data schema rows y m = Except.ok out) :
    (schema.hasEmpType = true →
      out.livewater = some ((out.filtered.filter
        (fun r => r.toDatedRow.raw.empType == "活水")).map
          (fun r => r.toDatedRow.raw.name))) ∧
    (schema.hasEmpType = false → out.livewater = none) ∧
    (process_data { schema with hasEmpType := false } rows y m
      = Except.ok { out with livewater := none }) := by
  obtain ⟨hmiss, dated, hpd, hlw, hbf, hres, hse⟩ := process_data_ok_elim schema rows y m out h
  obtain ⟨hmap, -⟩ := buildFiltered_ok schema _ _ hbf
  refine ⟨?_, ?_, ?_⟩
  · intro he
    cases hn : schema.hasName with
    | false =>
      unfold livewaterOf at hlw
      rw [he, hn] at hlw
      simp at hlw
    | true =>
      unfold livewaterOf at hlw
      rw [he, hn] at hlw
      simp only [if_true, eq_self_iff_true, Except.ok.injEq] at hlw
      rw [← hlw, ← hmap, List.filter_map FilteredRow.toDatedRow out.filtered,
        List.map_map]
      rfl
  · intro he
    unfold livewaterOf at hlw
    rw [he] at hlw
    simp only [Bool.false_eq_true, if_false, Except.ok.injEq] at hlw
    exact hlw.symm
  · have hmiss2 : (requiredColumns.filter
        (fun c => ! Schema.hasColumn { schema with hasEmpType := false } c)) = [] := by
      rw [← hmiss]
      apply List.filter_congr
      intro c hc
      fin_cases hc <;> rfl
    have hlw2 : livewaterOf { schema with hasEmpType := false }
        (tenureCutOf y (step2Of m dated)) = Except.ok none := rfl
    simp only [process_data]
    rw [hmiss2]
    simp [hpd, hlw2, buildFiltered_schema_no_emptype, hbf, hres, hse]

/-- The C1 schema with a 员工类型 column added. -/
def schemaC9 : Schema := { exSchemaC1 with hasEmpType := true }

/-- An internal-transfer (活水) regular employee. -/
def rowC9 : InputRow :=
  { hireDate := .valid ⟨2021, 3, 8⟩, tenureStart := .null,
    org3 := "技术中心", org4 := "平台部", cat2 := "正式员工", cat1 := "正式",
    name := "钱七", aliasName := none, empType := "活水" }

/-- The filtered row `process_data` produces from `rowC9` at (2025, 3). -/
def fRowC9 : FilteredRow :=
  { raw := rowC9, hire := some ⟨2021, 3, 8⟩, override := none,
    remark := "", label := "技术中心-钱七" }

/-- The output of `process_data schemaC9 [rowC9] 2025 3`: the 活水
name of the 活水 employee lands in the advisory list. -/
def outC9 : Output :=
  { filtered := [fRowC9],
    result := [{ count := 4, label := "4周年", names := "技术中心-钱七" }],
    special_exclusions := 0, livewater := some ["钱七"] }

/-- Witness for C9: on the concrete run the advisory list is exactly the
name of the 活水 record among the filtered rows. -/
theorem mobility_alert_witness :
    outC9.livewater = some ((outC9.filtered.filter
      (fun r => r.toDatedRow.raw.empType == "活水")).map
        (fun r => r.toDatedRow.raw.name)) := by
  have h := mobility_alert schemaC9 [rowC9] 2025 3 outC9 rfl
  exact h.1 rfl

/-! Section: C10 -/

theorem buildFiltered_missing_name (schema : Schema) (l : List DatedRow)
    (hne : l ≠ []) (hn : schema.hasName = false) :
    buildFiltered schema l = Except.error (ProcErr.keyError "姓名") := by
  cases l with
  | nil => exact absurd rfl hne
  | cons r rs =>
    have hfmt : format_info schema r = Except.error (ProcErr.keyError "姓名") := by
      unfold format_info
      rw [hn]
      rfl
    unfold buildFiltered
    rw [hfmt]

theorem buildFiltered_missing_alias (schema : Schema) (l : List DatedRow)
    (hne : l ≠ []) (hn : schema.hasName = true) (ha : schema.hasAlias = false) :
    buildFiltered schema l = Except.error (ProcErr.keyError "花名") := by
  cases l with
  | nil => exact absurd rfl hne
  | cons r rs =>
    have hfmt : format_info schema r = Except.error (ProcErr.keyError "花名") := by
      unfold format_info
      rw [hn, ha]
      rfl
    unfold buildFiltered
    rw [hfmt]

/-- The C1 schema with the 姓名 column removed (schema validation does
not require it). -/
def schemaC10 : Schema := { exSchemaC1 with hasName := false }

/-- C10 counterexample: with the six required columns present but 姓名
absent, schema validation passes and the run fails only at the label
stage — with the `KeyError` for 姓名, whose Python message is the quoted
column name, so the failure does name the missing column (contradicting
the parenthetical of the claim). -/
theorem missing_name_error_counterexample :
    process_data schemaC10 [rowC1] 2025 3 = Except.error (ProcErr.keyError "姓名") ∧
    ProcErr.namesColumn (ProcErr.keyError "姓名") "姓名" = true := ⟨rfl, rfl⟩

/-- C10 amended: 姓名 and 花名 are outside the required-column set, so
schema validation passes without them; but when at least one record
survives both filters the builder fails with the key-lookup error for
the absent column — at the livewater stage when a 员工类型 column is
present, at the label stage otherwise — an error that does name the
missing column, though not as the schema error — and returns no
frames. -/
theorem name_alias_not_required_late_failure (schema : Schema) (rows : List InputRow)
    (y : Int) (m : Nat) (dated : List DatedRow)
    (hreq : requiredColumns.filter (fun c => ! schema.hasColumn c) = [])
    (hd : process_dates rows = Except.ok dated)
    (hne : tenureCutOf y (step2Of m dated) ≠ []) :
    ("姓名" ∉ requiredColumns ∧ "花名" ∉ requiredColumns) ∧
    (schema.hasName = false →
      process_data schema rows y m = Except.error (ProcErr.keyError "姓名") ∧
      ProcErr.namesColumn (ProcErr.keyError "姓名") "姓名" = true) ∧
    (schema.hasName = true → schema.hasAlias = false →
      process_data schema rows y m = Except.error (ProcErr.keyError "花名") ∧
      ProcErr.namesColumn (ProcErr.keyError "花名") "花名" = true) := by
  refine ⟨⟨by decide, by decide⟩, ?_, ?_⟩
  · intro hn
    refine ⟨?_, rfl⟩
    simp only [process_data]
    rw [hreq]
    cases he : schema.hasEmpType with
    | true =>
      have hlw : livewaterOf schema (tenureCutOf y (step2Of m dated))
          = Except.error (ProcErr.keyError "姓名") := by
        unfold livewaterOf
        rw [he, hn]
        rfl
      simp [hd, hlw]
    | false =>
      have hlw : livewaterOf schema (tenureCutOf y (step2Of m dated)) = Except.ok none := by
        unfold livewaterOf
        rw [he]
        rfl
      simp [hd, hlw, buildFiltered_missing_name schema _ hne hn]
  · intro hn ha
    refine ⟨?_, rfl⟩
    simp only [process_data]
    rw [hreq]
    cases he : schema.hasEmpType with
    | true =>
      have hlw : livewaterOf schema (tenureCutOf y (step2Of m dated))
          = Except.ok (some (((tenureCutOf y (step2Of m dated)).filter
              (fun r => r.raw.empType == "活水")).map (fun r => r.raw.name))) := by
        unfold livewaterOf
        rw [he, hn]
        rfl
      simp [hd, hlw, buildFiltered_missing_alias schema _ hne hn ha]
    | false =>
      have hlw : livewaterOf schema (tenureCutOf y (step2Of m dated)) = Except.ok none := by
        unfold livewaterOf
        rw [he]
        rfl
      simp [hd, hlw, buildFiltered_missing_alias schema _ hne hn ha]

/-- Witness for the amended C10 at the concrete 姓名-less run. -/
theorem name_alias_not_required_late_failure_witness :
    process_data schemaC10 [rowC1] 2025 3 = Except.error (ProcErr.keyError "姓名") := by
  have h := name_alias_not_required_late_failure schemaC10 [rowC1] 2025 3
    [fRowC1.toDatedRow] rfl rfl (by decide)
  exact (h.2.1 rfl).1
